import Mathlib

/-!
Verification development for the DIP20 fungible-token canister
(Psychedelic/DIP20).  The repository contains three near-identical
variants of the same ledger:

  * `src/token/src/main.rs`       - the ledger-linked variant (block-based
    mint, withdraw against an external ICP ledger, used-block set, genesis
    record, cap audit outbox);
  * `src/rust/token/src/main.rs`  - the cap-audited fee-forwarding variant
    (owner mint, burn, audit outbox taken out of a `RefCell`);
  * `src/rust/src/main.rs`        - the basic variant (owner mint, burn, no
    audit records outside init, in-place audit outbox).

This file shallowly embeds the state and the state transitions of those
programs: `HashMap` becomes an association list with first-occurrence
lookup, candid `Nat` (arbitrary precision) becomes `Nat`, and every
external call (cap insert, ledger block fetch, ledger send) becomes an
explicit outcome parameter.  A Rust panic / canister trap is modelled by
an `Option` result being `none`.  Sequences of operations are captured by
a step relation and a reachability predicate over which the global
invariants are proved.
-/

/-- Principals (opaque account identifiers, compared only by equality) are
modelled as naturals. -/
abbrev Principal := Nat

/-- `ledger_canister::AccountIdentifier::new(pid, sub)` is modelled as the
pair of the principal and the optional subaccount; the claims only ever
compare account identifiers for equality. -/
abbrev AccountId := Principal × Option Nat

/-- `TxError` from the sources.  `src/rust/token` carries a message string in
`Other`; the payload is irrelevant to every claim and is dropped. -/
inductive TxError where
  | InsufficientBalance
  | InsufficientAllowance
  | Unauthorized
  | LedgerTrap
  | AmountTooSmall
  | BlockUsed
  | ErrorOperationStyle
  | ErrorTo
  | Other
deriving DecidableEq

/-- `type TxReceipt = Result<Nat, TxError>` from the sources (the basic
variant uses `usize` in place of `Nat`). -/
inductive TxReceipt where
  | ok (id : Nat)
  | err (e : TxError)
deriving DecidableEq

/-- `cap_std::dip20::Operation` (the constructors used by this repository). -/
inductive Operation where
  | Mint
  | Burn
  | Transfer
  | TransferFrom
  | Approve
deriving DecidableEq

/-- `cap_std::dip20::TransactionStatus`. -/
inductive TransactionStatus where
  | Succeeded
  | Failed
deriving DecidableEq

/-- `cap_std::dip20::TxRecord`, the audit record handed to the cap outbox.
The Rust fields `from`/`to` are Lean keywords and are rendered with a
trailing underscore. -/
structure TxRecord where
  caller : Option Principal
  index : Nat
  from_ : Principal
  to_ : Principal
  amount : Nat
  fee : Nat
  timestamp : Nat
  status : TransactionStatus
  operation : Operation
deriving DecidableEq

/-- `type Balances = HashMap<Principal, Nat>`, modelled as an association
list with first-occurrence lookup. -/
abbrev Balances := List (Principal × Nat)

/-- `type Allowances = HashMap<Principal, HashMap<Principal, Nat>>`. -/
abbrev Allowances := List (Principal × Balances)

/-- `HashMap::get`: first entry with the given key. -/
def mapLookup {β : Type} : List (Principal × β) → Principal → Option β
  | [], _ => none
  | kv :: rest, k => if kv.1 = k then some kv.2 else mapLookup rest k

/-- `HashMap::insert`: replace the first entry with the given key, or append
a fresh entry. -/
def mapInsert {β : Type} : List (Principal × β) → Principal → β → List (Principal × β)
  | [], k, v => [(k, v)]
  | kv :: rest, k, v => if kv.1 = k then (k, v) :: rest else kv :: mapInsert rest k v

/-- `HashMap::remove`: drop the first entry with the given key. -/
def mapRemove {β : Type} : List (Principal × β) → Principal → List (Principal × β)
  | [], _ => []
  | kv :: rest, k => if kv.1 = k then rest else kv :: mapRemove rest k

/-- The keys of an association list are pairwise distinct.  Every map built
by `mapInsert`/`mapRemove` from the empty map satisfies this. -/
def keysNodup {β : Type} (m : List (Principal × β)) : Prop :=
  (m.map Prod.fst).Nodup

instance {β : Type} (m : List (Principal × β)) : Decidable (keysNodup m) := by
  unfold keysNodup
  infer_instance

/-- Sum of all values stored in a balance map. -/
def sumVals (m : Balances) : Nat :=
  (m.map Prod.snd).sum

/-- `balance_of` (all three variants): the stored balance, `0` if absent. -/
def balance_of (balances : Balances) (id : Principal) : Nat :=
  match mapLookup balances id with
  | some balance => balance
  | none => 0

/-- `allowance` (all three variants): nested lookup, `0` if either level is
absent. -/
def allowance (allowances : Allowances) (owner spender : Principal) : Nat :=
  match mapLookup allowances owner with
  | some inner =>
      match mapLookup inner spender with
      | some value => value
      | none => 0
  | none => 0

section MapLemmas

variable {β : Type}

theorem mapLookup_insert_self (m : List (Principal × β)) (k : Principal) (v : β) :
    mapLookup (mapInsert m k v) k = some v := by
  induction m with
  | nil => simp [mapInsert, mapLookup]
  | cons kv rest ih =>
      simp only [mapInsert]
      by_cases h : kv.1 = k
      · rw [if_pos h]
        simp [mapLookup]
      · rw [if_neg h]
        simp only [mapLookup]
        rw [if_neg h]
        exact ih

theorem mapLookup_insert_ne (m : List (Principal × β)) {k k' : Principal} (v : β)
    (h : k' ≠ k) : mapLookup (mapInsert m k v) k' = mapLookup m k' := by
  have hne : ¬(k = k') := fun hh => h hh.symm
  induction m with
  | nil =>
      simp only [mapInsert, mapLookup]
      rw [if_neg hne]
  | cons kv rest ih =>
      simp only [mapInsert]
      by_cases hk : kv.1 = k
      · rw [if_pos hk]
        have h2 : ¬(kv.1 = k') := by rw [hk]; exact hne
        simp only [mapLookup]
        rw [if_neg hne, if_neg h2]
      · rw [if_neg hk]
        simp only [mapLookup]
        by_cases hk' : kv.1 = k'
        · rw [if_pos hk', if_pos hk']
        · rw [if_neg hk', if_neg hk']
          exact ih

theorem mapLookup_remove_ne (m : List (Principal × β)) {k k' : Principal}
    (h : k' ≠ k) : mapLookup (mapRemove m k) k' = mapLookup m k' := by
  induction m with
  | nil => simp [mapRemove]
  | cons kv rest ih =>
      simp only [mapRemove]
      by_cases hk : kv.1 = k
      · rw [if_pos hk]
        have h2 : ¬(kv.1 = k') := by rw [hk]; exact fun hh => h hh.symm
        conv_rhs => rw [mapLookup]
        rw [if_neg h2]
      · rw [if_neg hk]
        simp only [mapLookup]
        by_cases hk' : kv.1 = k'
        · rw [if_pos hk', if_pos hk']
        · rw [if_neg hk', if_neg hk']
          exact ih

theorem mapLookup_isSome_mem (m : List (Principal × β)) (k : Principal)
    (h : (mapLookup m k).isSome) : k ∈ m.map Prod.fst := by
  induction m with
  | nil => simp [mapLookup] at h
  | cons kv rest ih =>
      simp only [mapLookup] at h
      by_cases h' : kv.1 = k
      · simp [h']
      · rw [if_neg h'] at h
        simp [ih h]

theorem mapLookup_remove_self (m : List (Principal × β)) (k : Principal)
    (hnd : keysNodup m) : mapLookup (mapRemove m k) k = none := by
  induction m with
  | nil => simp [mapRemove, mapLookup]
  | cons kv rest ih =>
      simp only [keysNodup, List.map_cons, List.nodup_cons] at hnd
      simp only [mapRemove]
      by_cases h' : kv.1 = k
      · rw [if_pos h']
        cases hlk : mapLookup rest k with
        | none => rfl
        | some v =>
            exfalso
            apply hnd.1
            rw [h']
            exact mapLookup_isSome_mem rest k (by simp [hlk])
      · rw [if_neg h']
        simp only [mapLookup]
        rw [if_neg h']
        exact ih hnd.2

theorem mem_mapInsert (m : List (Principal × β)) (k : Principal) (v : β)
    {x : Principal × β} (hx : x ∈ mapInsert m k v) : x = (k, v) ∨ x ∈ m := by
  induction m with
  | nil => simpa [mapInsert] using hx
  | cons kv rest ih =>
      simp only [mapInsert] at hx
      by_cases h' : kv.1 = k
      · rw [if_pos h'] at hx
        rcases List.mem_cons.1 hx with hx | hx
        · exact Or.inl hx
        · exact Or.inr (List.mem_cons.2 (Or.inr hx))
      · rw [if_neg h'] at hx
        rcases List.mem_cons.1 hx with hx | hx
        · exact Or.inr (List.mem_cons.2 (Or.inl hx))
        · rcases ih hx with h2 | h2
          · exact Or.inl h2
          · exact Or.inr (List.mem_cons.2 (Or.inr h2))

theorem mem_mapRemove (m : List (Principal × β)) (k : Principal)
    {x : Principal × β} (hx : x ∈ mapRemove m k) : x ∈ m := by
  induction m with
  | nil => simp [mapRemove] at hx
  | cons kv rest ih =>
      simp only [mapRemove] at hx
      by_cases h' : kv.1 = k
      · rw [if_pos h'] at hx
        exact List.mem_cons.2 (Or.inr hx)
      · rw [if_neg h'] at hx
        rcases List.mem_cons.1 hx with hx | hx
        · exact List.mem_cons.2 (Or.inl hx)
        · exact List.mem_cons.2 (Or.inr (ih hx))

theorem keysNodup_insert (m : List (Principal × β)) (k : Principal) (v : β)
    (hnd : keysNodup m) : keysNodup (mapInsert m k v) := by
  induction m with
  | nil => simp [mapInsert, keysNodup]
  | cons kv rest ih =>
      simp only [keysNodup, List.map_cons, List.nodup_cons] at hnd
      simp only [mapInsert]
      by_cases h' : kv.1 = k
      · rw [if_pos h']
        simp only [keysNodup, List.map_cons, List.nodup_cons]
        exact ⟨h' ▸ hnd.1, hnd.2⟩
      · rw [if_neg h']
        simp only [keysNodup, List.map_cons, List.nodup_cons]
        constructor
        · intro hmem
          simp only [List.mem_map] at hmem
          obtain ⟨x, hx, hx1⟩ := hmem
          rcases mem_mapInsert rest k v hx with h2 | h2
          · exact h' (by rw [← hx1, h2])
          · exact hnd.1 (List.mem_map.2 ⟨x, h2, hx1⟩)
        · exact ih hnd.2

theorem keysNodup_remove (m : List (Principal × β)) (k : Principal)
    (hnd : keysNodup m) : keysNodup (mapRemove m k) := by
  induction m with
  | nil => simpa [mapRemove] using hnd
  | cons kv rest ih =>
      simp only [keysNodup, List.map_cons, List.nodup_cons] at hnd
      simp only [mapRemove]
      by_cases h' : kv.1 = k
      · rw [if_pos h']
        exact hnd.2
      · rw [if_neg h']
        simp only [keysNodup, List.map_cons, List.nodup_cons]
        constructor
        · intro hmem
          simp only [List.mem_map] at hmem
          obtain ⟨x, hx, hx1⟩ := hmem
          exact hnd.1 (List.mem_map.2 ⟨x, mem_mapRemove rest k hx, hx1⟩)
        · exact ih hnd.2

theorem mapInsert_same_value (m : List (Principal × β)) (k : Principal) (v : β)
    (h : mapLookup m k = some v) : mapInsert m k v = m := by
  induction m with
  | nil => simp [mapLookup] at h
  | cons kv rest ih =>
      simp only [mapLookup] at h
      simp only [mapInsert]
      by_cases hk : kv.1 = k
      · rw [if_pos hk] at h ⊢
        injection h with h2
        subst h2
        subst hk
        simp
      · rw [if_neg hk] at h ⊢
        rw [ih h]

theorem mapInsert_mapInsert (m : List (Principal × β)) (k : Principal) (a b : β) :
    mapInsert (mapInsert m k a) k b = mapInsert m k b := by
  induction m with
  | nil => simp [mapInsert]
  | cons kv rest ih =>
      simp only [mapInsert]
      by_cases hk : kv.1 = k
      · simp only [if_pos hk]
        simp [mapInsert]
      · simp only [if_neg hk]
        simp only [mapInsert]
        simp only [if_neg hk]
        rw [ih]

theorem mapRemove_eq_nil_inv (m : List (Principal × β)) (k : Principal)
    (h : mapRemove m k = []) : m = [] ∨ ∃ v, m = [(k, v)] := by
  cases m with
  | nil => exact Or.inl rfl
  | cons kv rest =>
      simp only [mapRemove] at h
      by_cases h' : kv.1 = k
      · rw [if_pos h'] at h
        subst h
        right
        refine ⟨kv.2, ?_⟩
        rw [← h']
      · rw [if_neg h'] at h
        simp at h

end MapLemmas

theorem balance_of_cons (kv : Principal × Nat) (rest : Balances) (k : Principal) :
    balance_of (kv :: rest) k = if kv.1 = k then kv.2 else balance_of rest k := by
  by_cases h : kv.1 = k <;> simp [balance_of, mapLookup, h]

theorem sumVals_cons (kv : Principal × Nat) (rest : Balances) :
    sumVals (kv :: rest) = kv.2 + sumVals rest := by
  simp [sumVals]

theorem balance_of_insert_self (m : Balances) (k : Principal) (v : Nat) :
    balance_of (mapInsert m k v) k = v := by
  simp [balance_of, mapLookup_insert_self]

theorem balance_of_insert_ne (m : Balances) {k k' : Principal} (v : Nat)
    (h : k' ≠ k) : balance_of (mapInsert m k v) k' = balance_of m k' := by
  simp [balance_of, mapLookup_insert_ne m v h]

theorem balance_of_remove_ne (m : Balances) {k k' : Principal}
    (h : k' ≠ k) : balance_of (mapRemove m k) k' = balance_of m k' := by
  simp [balance_of, mapLookup_remove_ne m h]

theorem balance_of_remove_self (m : Balances) (k : Principal)
    (hnd : keysNodup m) : balance_of (mapRemove m k) k = 0 := by
  simp [balance_of, mapLookup_remove_self m k hnd]

theorem mapLookup_of_balance_pos (m : Balances) (k : Principal)
    (h : balance_of m k ≠ 0) : mapLookup m k = some (balance_of m k) := by
  cases hlk : mapLookup m k with
  | none =>
      exfalso
      apply h
      unfold balance_of
      rw [hlk]
  | some v =>
      unfold balance_of
      rw [hlk]

theorem sumVals_insert (m : Balances) (k : Principal) (v : Nat) :
    sumVals (mapInsert m k v) + balance_of m k = sumVals m + v := by
  induction m with
  | nil => simp [mapInsert, sumVals, balance_of, mapLookup]
  | cons kv rest ih =>
      simp only [mapInsert]
      by_cases hk : kv.1 = k
      · rw [if_pos hk]
        rw [sumVals_cons, sumVals_cons, balance_of_cons, if_pos hk]
        omega
      · rw [if_neg hk]
        rw [sumVals_cons, sumVals_cons, balance_of_cons, if_neg hk]
        omega

theorem sumVals_remove (m : Balances) (k : Principal) :
    sumVals (mapRemove m k) + balance_of m k = sumVals m := by
  induction m with
  | nil => simp [mapRemove, sumVals, balance_of, mapLookup]
  | cons kv rest ih =>
      simp only [mapRemove]
      by_cases hk : kv.1 = k
      · rw [if_pos hk]
        rw [sumVals_cons, balance_of_cons, if_pos hk]
        omega
      · rw [if_neg hk]
        rw [sumVals_cons, sumVals_cons, balance_of_cons, if_neg hk]
        omega

/-! ## Canister state -/

/-- `StatsData` from `src/token/src/main.rs` / `src/rust/token/src/main.rs`
(named `Metadata` in `src/rust/src/main.rs`, with identical fields). -/
structure StatsData where
  logo : String
  name : String
  symbol : String
  decimals : Nat
  total_supply : Nat
  owner : Principal
  fee : Nat
  fee_to : Principal
  history_size : Nat
  deploy_time : Nat
deriving DecidableEq

/-- The principal `Principal::anonymous()`. -/
def anonymousPrincipal : Principal := 1

/-- The principal `Principal::from_text("aaaaa-aa")` (management canister). -/
def managementPrincipal : Principal := 2

/-- `Default::default()` for the genesis `TxRecord`-shaped record of the
ledger-linked variant (`impl Default for Genesis`,
`src/token/src/main.rs` lines 99-112). -/
def genesisDefault : TxRecord :=
  { caller := none
    index := 0
    from_ := anonymousPrincipal
    to_ := anonymousPrincipal
    amount := 0
    fee := 0
    timestamp := 0
    status := .Succeeded
    operation := .Mint }

/-- The whole mutable canister state of the ledger-linked variant
(`src/token/src/main.rs`): stats, balances, allowances, used-block set,
cap outbox (`TxLog.ie_records`, front of the list = front of the
`VecDeque`), and the genesis record.  The two `rust` variants use the
subset of these fields that exists in their sources. -/
structure State where
  stats : StatsData
  balances : Balances
  allowances : Allowances
  usedBlocks : List Nat
  txLog : List TxRecord
  genesis : TxRecord
deriving DecidableEq

/-- `const THRESHOLD: Tokens = Tokens::from_e8s(0)` (`src/token/src/main.rs`
line 143). -/
def THRESHOLD : Nat := 0

/-- `const ICPFEE: Tokens = Tokens::from_e8s(10000)` (`src/token/src/main.rs`
line 144). -/
def ICPFEE : Nat := 10000

/-! ## Audit outbox (cap) -/

/-- Outcome of one external `cap_sdk::insert` call: the assigned sequence
id, or a failure. -/
inductive InsertRes where
  | ok (id : Nat)
  | failed
deriving DecidableEq

/-- `insert_into_cap_priv` (all variants): attempt the external insert; on
failure push the record to the back of the queue and report `Other`.
The external outcome is the explicit parameter `res`. -/
def insert_into_cap_priv (log : List TxRecord) (ie : TxRecord) (res : InsertRes) :
    List TxRecord × TxReceipt :=
  match res with
  | .ok id => (log, .ok id)
  | .failed => (log ++ [ie], .err .Other)

/-- `insert_into_cap` of `src/token/src/main.rs` (lines 893-899) and
`src/rust/src/main.rs` (lines 490-496): the queue is a global mutated in
place; pop the front record if any and retry it (discarding its receipt),
then send the new record.  `retryRes` is the external outcome of the
retry (ignored when the queue is empty), `newRes` that of the new
record. -/
def insert_into_cap (log : List TxRecord) (ie : TxRecord)
    (retryRes newRes : InsertRes) : List TxRecord × TxReceipt :=
  match log with
  | [] => insert_into_cap_priv [] ie newRes
  | failed_ie :: rest =>
      let log1 := (insert_into_cap_priv rest failed_ie retryRes).1
      insert_into_cap_priv log1 ie newRes

/-- `insert_into_cap` of `src/rust/token/src/main.rs` (lines 701-707).  This
variant `take`s the whole `TXLOG` out of its `RefCell` (leaving the global
empty), pops the front of the local copy, and never writes the remaining
records back: `insert_into_cap_priv` operates on the emptied global. -/
def insert_into_cap_rt (log : List TxRecord) (ie : TxRecord)
    (retryRes newRes : InsertRes) : List TxRecord × TxReceipt :=
  match log with
  | [] => insert_into_cap_priv [] ie newRes
  | failed_ie :: _dropped =>
      let log1 := (insert_into_cap_priv [] failed_ie retryRes).1
      insert_into_cap_priv log1 ie newRes

/-! ## Internal transfer primitives -/

/-- `_transfer` (`src/token/src/main.rs` lines 819-833, identical in the two
other variants): move `value`, removing the sender's entry when it hits 0
and inserting the receiver's entry only when nonzero.  The sources
subtract candid `Nat`s, which traps on underflow; every caller checks
sufficiency first, so the truncated Lean subtraction agrees wherever the
source does not trap. -/
def _transfer (balances : Balances) (from_ to_ : Principal) (value : Nat) : Balances :=
  let from_balance := balance_of balances from_
  let from_balance_new := from_balance - value
  let b1 := if from_balance_new ≠ 0 then mapInsert balances from_ from_balance_new
            else mapRemove balances from_
  let to_balance := balance_of b1 to_
  let to_balance_new := to_balance + value
  if to_balance_new ≠ 0 then mapInsert b1 to_ to_balance_new else b1

/-- `_charge_fee` (`src/token/src/main.rs` lines 835-842): forward the
configured fee to `fee_to` via `_transfer` when the fee is positive. -/
def _charge_fee (stats : StatsData) (balances : Balances) (user : Principal) : Balances :=
  if 0 < stats.fee then _transfer balances user stats.fee_to stats.fee else balances

/-! ## Ledger-linked variant (`src/token/src/main.rs`) -/

/-- `init` (`src/token/src/main.rs` lines 146-184): set the stats, credit the
owner with the initial supply, and save the genesis record (this variant
does not send an audit record at init). -/
def Token.init (logo name symbol : String) (decimals : Nat) (initial_supply : Nat)
    (owner : Principal) (fee : Nat) (fee_to : Principal) (time : Nat) : State :=
  { stats :=
      { logo := logo
        name := name
        symbol := symbol
        decimals := decimals
        total_supply := initial_supply
        owner := owner
        fee := fee
        fee_to := fee_to
        history_size := 1
        deploy_time := time }
    balances := mapInsert [] owner initial_supply
    allowances := []
    usedBlocks := []
    txLog := []
    genesis :=
      { caller := some owner
        index := 0
        from_ := managementPrincipal
        to_ := owner
        amount := initial_supply
        fee := fee
        timestamp := time
        status := .Succeeded
        operation := .Mint } }

/-- `transfer` (`src/token/src/main.rs` lines 186-209): balance guard, fee
charge, value move, history increment, audit record through the outbox.
Returns the new state, the records emitted to the outbox during this
call, and the receipt. -/
def Token.transfer (S : State) (caller to_ : Principal) (value : Nat) (time : Nat)
    (retryRes newRes : InsertRes) : State × List TxRecord × TxReceipt :=
  if balance_of S.balances caller < value + S.stats.fee then
    (S, [], .err .InsufficientBalance)
  else
    let b1 := _charge_fee S.stats S.balances caller
    let b2 := _transfer b1 caller to_ value
    let st1 := { S.stats with history_size := S.stats.history_size + 1 }
    let r : TxRecord :=
      { caller := some caller
        index := 0
        from_ := caller
        to_ := to_
        amount := value
        fee := S.stats.fee
        timestamp := time
        status := .Succeeded
        operation := .Transfer }
    let out := insert_into_cap S.txLog r retryRes newRes
    ({ S with balances := b2, stats := st1, txLog := out.1 }, [r], out.2)

/-- `transfer_from` (`src/token/src/main.rs` lines 211-259): allowance guard,
balance guard, fee charge from `from_`, value move, allowance decrement
with zero-pruning of both levels, history increment, audit record.  A
`none` result models the `unwrap`/`assert!(false)` panic the source hits
when the guards pass but the `(from_, caller)` allowance entry is absent
(possible only when `value + fee = 0`). -/
def Token.transfer_from (S : State) (caller from_ to_ : Principal) (value : Nat)
    (time : Nat) (retryRes newRes : InsertRes) :
    Option (State × List TxRecord × TxReceipt) :=
  let fee := S.stats.fee
  let from_allowance := allowance S.allowances from_ caller
  if from_allowance < value + fee then
    some (S, [], .err .InsufficientAllowance)
  else if balance_of S.balances from_ < value + fee then
    some (S, [], .err .InsufficientBalance)
  else
    let b1 := _charge_fee S.stats S.balances from_
    let b2 := _transfer b1 from_ to_ value
    match mapLookup S.allowances from_ with
    | none => none
    | some inner =>
        match mapLookup inner caller with
        | none => none
        | some result =>
            let allows1 :=
              if result - value - fee ≠ 0 then
                mapInsert S.allowances from_ (mapInsert inner caller (result - value - fee))
              else
                let temp := mapRemove inner caller
                if temp.length = 0 then mapRemove S.allowances from_
                else mapInsert S.allowances from_ temp
            let st1 := { S.stats with history_size := S.stats.history_size + 1 }
            let r : TxRecord :=
              { caller := some caller
                index := 0
                from_ := from_
                to_ := to_
                amount := value
                fee := fee
                timestamp := time
                status := .Succeeded
                operation := .TransferFrom }
            let out := insert_into_cap S.txLog r retryRes newRes
            some ({ S with balances := b2, allowances := allows1, stats := st1,
                           txLog := out.1 }, [r], out.2)

/-- `approve` (`src/token/src/main.rs` lines 261-308): fee guard, fee charge,
set the `(caller, spender)` allowance to `value + fee` with zero-pruning,
history increment, audit record with granted amount `value + fee`. -/
def Token.approve (S : State) (caller spender : Principal) (value : Nat) (time : Nat)
    (retryRes newRes : InsertRes) : State × List TxRecord × TxReceipt :=
  let fee := S.stats.fee
  if balance_of S.balances caller < fee then
    (S, [], .err .InsufficientBalance)
  else
    let b1 := _charge_fee S.stats S.balances caller
    let v := value + fee
    let allows1 :=
      match mapLookup S.allowances caller with
      | some inner =>
          if v ≠ 0 then mapInsert S.allowances caller (mapInsert inner spender v)
          else
            let temp := mapRemove inner spender
            if temp.length = 0 then mapRemove S.allowances caller
            else mapInsert S.allowances caller temp
      | none =>
          if v ≠ 0 then mapInsert S.allowances caller [(spender, v)]
          else S.allowances
    let st1 := { S.stats with history_size := S.stats.history_size + 1 }
    let r : TxRecord :=
      { caller := some caller
        index := 0
        from_ := caller
        to_ := spender
        amount := v
        fee := fee
        timestamp := time
        status := .Succeeded
        operation := .Approve }
    let out := insert_into_cap S.txLog r retryRes newRes
    ({ S with balances := b1, allowances := allows1, stats := st1, txLog := out.1 },
     [r], out.2)

/-! ## Block-based mint of the ledger-linked variant -/

/-- The decoded content of a fetched ledger block: either an operation that
is not a `Transfer`, or a `Transfer { from, to, amount }` (the fee inside
the block is ignored by the source). -/
inductive BlockData where
  | notTransfer
  | transferOp (from_ to_ : AccountId) (amount : Nat)
deriving DecidableEq

/-- Combined outcome of the external block fetch in `mint`: failure (any of
the `Err`/`None`/decode-error paths, possibly after a redirect to an
archive canister), or a decoded block.  `two` records whether the archive
redirect happened, i.e. whether one or two external fetch calls were
made. -/
inductive FetchRes where
  | err (two : Bool)
  | ok (two : Bool) (bd : BlockData)
deriving DecidableEq

/-- Observable events of one `mint` invocation, used to state the ordering
claims: external calls (ledger block fetches and the final cap insert),
the insertion/removal of the block height into the used-block set, and
the balance/total-supply mutation. -/
inductive MEvent where
  | fetchCall
  | insertBlock
  | removeBlock
  | mutateState
  | capCall
deriving DecidableEq

/-- `mint` (`src/token/src/main.rs` lines 310-410): fetch and decode the
block (one or two external calls), *then* insert the block height into
the used-block set (`assert_eq!(blocks.insert(block_height), true)` -
modelled as a trap, `none`, when the height is already present), validate
caller/destination/threshold (removing the height again on failure),
credit the caller, bump the supply and the history counter, and send the
audit record.  Returns the new state, the event trace, the emitted
records and the receipt. -/
def Token.mint (S : State) (caller : Principal) (sub_account : Option Nat)
    (block_height : Nat) (selfPid : Principal) (fetch : FetchRes) (time : Nat)
    (retryRes newRes : InsertRes) :
    Option (State × List MEvent × List TxRecord × TxReceipt) :=
  match fetch with
  | .err two =>
      some (S, if two then [.fetchCall, .fetchCall] else [.fetchCall], [], .err .Other)
  | .ok two bd =>
      let fcalls : List MEvent := if two then [.fetchCall, .fetchCall] else [.fetchCall]
      match bd with
      | .notTransfer => some (S, fcalls, [], .err .ErrorOperationStyle)
      | .transferOp from_ to_ amount =>
          if block_height ∈ S.usedBlocks then none
          else
            let S1 := { S with usedBlocks := block_height :: S.usedBlocks }
            let caller_account : AccountId := (caller, sub_account)
            if caller_account ≠ from_ then
              some (S, fcalls ++ [.insertBlock, .removeBlock], [], .err .Unauthorized)
            else if ((selfPid, none) : AccountId) ≠ to_ then
              some (S, fcalls ++ [.insertBlock, .removeBlock], [], .err .ErrorTo)
            else if amount < THRESHOLD then
              some (S, fcalls ++ [.insertBlock, .removeBlock], [], .err .AmountTooSmall)
            else
              let user_balance := balance_of S1.balances caller
              let b1 := mapInsert S1.balances caller (user_balance + amount)
              let st1 := { S1.stats with
                total_supply := S1.stats.total_supply + amount
                history_size := S1.stats.history_size + 1 }
              let r : TxRecord :=
                { caller := some caller
                  index := 0
                  from_ := caller
                  to_ := caller
                  amount := amount
                  fee := 0
                  timestamp := time
                  status := .Succeeded
                  operation := .Mint }
              let out := insert_into_cap S1.txLog r retryRes newRes
              some ({ S1 with balances := b1, stats := st1, txLog := out.1 },
                    fcalls ++ [.insertBlock, .mutateState, .capCall], [r], out.2)

/-- `withdraw` (`src/token/src/main.rs` lines 516-567): threshold and balance
guards, then `(Tokens::from_e8s(value) - ICPFEE).unwrap()` - a trap
(`none`) when `value < ICPFEE` - then the two-phase body: deduct the
balance and the total supply, issue the external `send_dfx` call
(outcome `sendOk`), and on failure credit both back and report
`LedgerTrap`; on success bump the history counter and send the audit
record. -/
def Token.withdraw (S : State) (caller : Principal) (value : Nat) (time : Nat)
    (sendOk : Bool) (retryRes newRes : InsertRes) :
    Option (State × List TxRecord × TxReceipt) :=
  if value < THRESHOLD then some (S, [], .err .AmountTooSmall)
  else
    let caller_balance := balance_of S.balances caller
    if caller_balance < value ∨ S.stats.total_supply < value then
      some (S, [], .err .InsufficientBalance)
    else if value < ICPFEE then none
    else
      let b1 := mapInsert S.balances caller (caller_balance - value)
      let st1 := { S.stats with total_supply := S.stats.total_supply - value }
      if sendOk then
        let st2 := { st1 with history_size := st1.history_size + 1 }
        let r : TxRecord :=
          { caller := some caller
            index := 0
            from_ := caller
            to_ := caller
            amount := value
            fee := 0
            timestamp := time
            status := .Succeeded
            operation := .Burn }
        let out := insert_into_cap S.txLog r retryRes newRes
        some ({ S with balances := b1, stats := st2, txLog := out.1 }, [r], out.2)
      else
        let b2 := mapInsert b1 caller (balance_of b1 caller + value)
        let st3 := { st1 with total_supply := st1.total_supply + value }
        some ({ S with balances := b2, stats := st3 }, [], .err .LedgerTrap)

/-! ## Queries -/

/-- Insert one holder into a list sorted by descending balance. -/
def insertDesc (x : Principal × Nat) : List (Principal × Nat) → List (Principal × Nat)
  | [] => [x]
  | y :: ys => if y.2 ≤ x.2 then x :: y :: ys else y :: insertDesc x ys

/-- `balance.sort_by(|a, b| b.1.cmp(&a.1))` from `get_holders`: sort the
holder list by descending balance (the iteration order of the underlying
`HashMap` is unspecified; only the length and the multiset of entries
matter to the claims). -/
def sortDesc : List (Principal × Nat) → List (Principal × Nat)
  | [] => []
  | x :: xs => insertDesc x (sortDesc xs)

/-- Width of the wasm32 `usize` used by the deployed canister; the `start`
and `limit` arguments of `get_holders` and the intermediate index
arithmetic wrap at this modulus in a release build (and a debug build
panics exactly where the wrapped computation makes the final slice
bounds invalid, in the same cases). -/
def USIZE : Nat := 2 ^ 32

/-- `get_holders` (`src/token/src/main.rs` lines 687-701, identical in the
other two variants): sort the holders, clamp `limit` by
`balance.len() - start` when `start + limit` overshoots, and return the
slice `balance[start..start + limit]`.  `usize` subtraction underflows
when `start > balance.len()` and the resulting slice bounds are invalid:
the source panics, modelled by `none`. -/
def get_holders (balances : Balances) (start limit : Nat) :
    Option (List (Principal × Nat)) :=
  let balance := sortDesc balances
  let n := balance.length
  let limit2 := if (start + limit) % USIZE > n then (n + USIZE - start) % USIZE else limit
  let hi := (start + limit2) % USIZE
  if start ≤ hi ∧ hi ≤ n then some ((balance.drop start).take (hi - start)) else none

/-! ## Upgrade hooks of the ledger-linked variant -/

/-- The tuple written to stable storage by `pre_upgrade`
(`src/token/src/main.rs` lines 926-937): stats, balances, allowances,
used blocks and the outbox.  The cap environment handle
(`CapEnv::to_archive()`) belongs to the external cap SDK and is out of
scope.  The genesis record is *not* part of the tuple. -/
structure Snapshot where
  stats : StatsData
  balances : Balances
  allowances : Allowances
  usedBlocks : List Nat
  txLog : List TxRecord
deriving DecidableEq

/-- `pre_upgrade` (`src/token/src/main.rs` lines 926-937). -/
def Token.pre_upgrade (S : State) : Snapshot :=
  { stats := S.stats
    balances := S.balances
    allowances := S.allowances
    usedBlocks := S.usedBlocks
    txLog := S.txLog }

/-- `post_upgrade` (`src/token/src/main.rs` lines 939-965): restore every
stored structure into the freshly default-initialised globals.  The
genesis record is not in the snapshot, so it keeps its
`Default::default()` value. -/
def Token.post_upgrade (snap : Snapshot) : State :=
  { stats := snap.stats
    balances := snap.balances
    allowances := snap.allowances
    usedBlocks := snap.usedBlocks
    txLog := snap.txLog
    genesis := genesisDefault }

/-- One canister upgrade: tear down with `pre_upgrade`, restart with
`post_upgrade`. -/
def upgradeRoundTrip (S : State) : State :=
  Token.post_upgrade (Token.pre_upgrade S)

/-! ## `src/rust/token/src/main.rs` operations used by the claims -/

/-- `burn` (`src/rust/token/src/main.rs` lines 276-304): balance guard, then
`balances.insert(caller, caller_balance - amount)` - an unconditional
insert that can store a zero balance - supply decrement, history
increment, audit record.  The balance/supply logic is identical to
`burn` in `src/rust/src/main.rs` lines 255-270, which emits no record. -/
def RustToken.burn (S : State) (caller : Principal) (amount : Nat) (time : Nat)
    (retryRes newRes : InsertRes) : State × List TxRecord × TxReceipt :=
  let caller_balance := balance_of S.balances caller
  if caller_balance < amount then (S, [], .err .InsufficientBalance)
  else
    let b1 := mapInsert S.balances caller (caller_balance - amount)
    let st1 := { S.stats with
      total_supply := S.stats.total_supply - amount
      history_size := S.stats.history_size + 1 }
    let r : TxRecord :=
      { caller := some caller
        index := 0
        from_ := caller
        to_ := caller
        amount := amount
        fee := 0
        timestamp := time
        status := .Succeeded
        operation := .Burn }
    let out := insert_into_cap_rt S.txLog r retryRes newRes
    ({ S with balances := b1, stats := st1, txLog := out.1 }, [r], out.2)

/-- `mint` (`src/rust/token/src/main.rs` lines 480-506): guarded by
`_is_auth`, which rejects non-owner callers before the body runs
(modelled as `none`); the body credits `to_`, bumps the supply and the
history counter, and emits a `Mint` record.  `mint` in
`src/rust/src/main.rs` lines 238-253 performs the same mutation after an
inline owner check. -/
def RustToken.mint (S : State) (caller to_ : Principal) (amount : Nat) (time : Nat)
    (retryRes newRes : InsertRes) : Option (State × List TxRecord × TxReceipt) :=
  if caller ≠ S.stats.owner then none
  else
    let to_balance := balance_of S.balances to_
    let b1 := mapInsert S.balances to_ (to_balance + amount)
    let st1 := { S.stats with
      total_supply := S.stats.total_supply + amount
      history_size := S.stats.history_size + 1 }
    let r : TxRecord :=
      { caller := some caller
        index := 0
        from_ := caller
        to_ := to_
        amount := amount
        fee := 0
        timestamp := time
        status := .Succeeded
        operation := .Mint }
    let out := insert_into_cap_rt S.txLog r retryRes newRes
    some ({ S with balances := b1, stats := st1, txLog := out.1 }, [r], out.2)

/-- `transfer` (`src/rust/src/main.rs` lines 142-155): balance guard, fee
charge, value move, history increment - and then `Ok(history_size)`
directly: this variant hands *no* record to the outbox (no `add_record`
call in its body). -/
def RustSrc.transfer (S : State) (caller to_ : Principal) (value : Nat) :
    State × List TxRecord × TxReceipt :=
  if balance_of S.balances caller < value + S.stats.fee then
    (S, [], .err .InsufficientBalance)
  else
    let b1 := _charge_fee S.stats S.balances caller
    let b2 := _transfer b1 caller to_ value
    let st1 := { S.stats with history_size := S.stats.history_size + 1 }
    ({ S with balances := b2, stats := st1 }, [], .ok st1.history_size)

/-! ## Lemmas about the transfer primitives -/

theorem sumVals_transfer (m : Balances) (from_ to_ : Principal) (value : Nat)
    (h : value ≤ balance_of m from_) :
    sumVals (_transfer m from_ to_ value) = sumVals m := by
  simp only [_transfer]
  split_ifs with h1 h2 h3
  · have e1 := sumVals_insert m from_ (balance_of m from_ - value)
    have e2 := sumVals_insert (mapInsert m from_ (balance_of m from_ - value)) to_
      (balance_of (mapInsert m from_ (balance_of m from_ - value)) to_ + value)
    omega
  · rw [not_not] at h2
    have e1 := sumVals_insert m from_ (balance_of m from_ - value)
    omega
  · rw [not_not] at h1
    have e1 := sumVals_remove m from_
    have e2 := sumVals_insert (mapRemove m from_) to_
      (balance_of (mapRemove m from_) to_ + value)
    omega
  · rw [not_not] at h1 h3
    have e1 := sumVals_remove m from_
    omega

theorem keysNodup_transfer (m : Balances) (from_ to_ : Principal) (value : Nat)
    (hnd : keysNodup m) : keysNodup (_transfer m from_ to_ value) := by
  simp only [_transfer]
  split_ifs
  · exact keysNodup_insert _ _ _ (keysNodup_insert _ _ _ hnd)
  · exact keysNodup_insert _ _ _ hnd
  · exact keysNodup_insert _ _ _ (keysNodup_remove _ _ hnd)
  · exact keysNodup_remove _ _ hnd

theorem balance_of_transfer_self (m : Balances) {from_ to_ : Principal} (value : Nat)
    (hne : from_ ≠ to_) (hnd : keysNodup m) :
    balance_of (_transfer m from_ to_ value) from_ = balance_of m from_ - value := by
  simp only [_transfer]
  split_ifs with h1 h2 h3
  · rw [balance_of_insert_ne _ _ hne, balance_of_insert_self]
  · rw [balance_of_insert_self]
  · rw [not_not] at h1
    rw [balance_of_insert_ne _ _ hne, balance_of_remove_self _ _ hnd]
    omega
  · rw [not_not] at h1
    rw [balance_of_remove_self _ _ hnd]
    omega

theorem balance_of_transfer_to (m : Balances) {from_ to_ : Principal} (value : Nat)
    (hne : from_ ≠ to_) :
    balance_of (_transfer m from_ to_ value) to_ = balance_of m to_ + value := by
  have htf : to_ ≠ from_ := fun hh => hne hh.symm
  simp only [_transfer]
  split_ifs with h1 h2 h3
  · rw [balance_of_insert_self, balance_of_insert_ne _ _ htf]
  · rw [not_not] at h2
    rw [balance_of_insert_ne _ _ htf] at h2 ⊢
    omega
  · rw [balance_of_insert_self, balance_of_remove_ne _ htf]
  · rw [not_not] at h3
    rw [balance_of_remove_ne _ htf] at h3 ⊢
    omega

theorem balance_of_transfer_other (m : Balances) {from_ to_ p : Principal} (value : Nat)
    (hpf : p ≠ from_) (hpt : p ≠ to_) :
    balance_of (_transfer m from_ to_ value) p = balance_of m p := by
  simp only [_transfer]
  split_ifs
  · rw [balance_of_insert_ne _ _ hpt, balance_of_insert_ne _ _ hpf]
  · rw [balance_of_insert_ne _ _ hpf]
  · rw [balance_of_insert_ne _ _ hpt, balance_of_remove_ne _ hpf]
  · rw [balance_of_remove_ne _ hpf]

theorem balance_of_transfer_self_same (m : Balances) (f : Principal) (value : Nat)
    (h : value ≤ balance_of m f) (hnd : keysNodup m) :
    balance_of (_transfer m f f value) f = balance_of m f := by
  simp only [_transfer]
  split_ifs with h1 h2 h3
  · rw [balance_of_insert_self] at h2 ⊢
    rw [balance_of_insert_self]
    omega
  · rw [balance_of_insert_self] at h2
    rw [not_not] at h2
    rw [balance_of_insert_self]
    omega
  · rw [not_not] at h1
    rw [balance_of_remove_self _ _ hnd] at h3 ⊢
    rw [balance_of_insert_self]
    omega
  · rw [not_not] at h1 h3
    rw [balance_of_remove_self _ _ hnd] at h3 ⊢
    omega

theorem sumVals_charge_fee (stats : StatsData) (m : Balances) (user : Principal)
    (h : stats.fee ≤ balance_of m user) :
    sumVals (_charge_fee stats m user) = sumVals m := by
  unfold _charge_fee
  split_ifs with h1
  · exact sumVals_transfer m user stats.fee_to stats.fee h
  · rfl

theorem keysNodup_charge_fee (stats : StatsData) (m : Balances) (user : Principal)
    (hnd : keysNodup m) : keysNodup (_charge_fee stats m user) := by
  unfold _charge_fee
  split_ifs with h1
  · exact keysNodup_transfer _ _ _ _ hnd
  · exact hnd

theorem balance_of_charge_fee_ge (stats : StatsData) (m : Balances) (user : Principal)
    (value : Nat) (h : value + stats.fee ≤ balance_of m user) (hnd : keysNodup m) :
    value ≤ balance_of (_charge_fee stats m user) user := by
  unfold _charge_fee
  split_ifs with h1
  · by_cases hne : user = stats.fee_to
    · rw [← hne]
      rw [balance_of_transfer_self_same m user stats.fee (by omega) hnd]
      omega
    · rw [balance_of_transfer_self m stats.fee hne hnd]
      omega
  · omega

/-! ## Reachability and the supply invariant -/

/-- One public operation of the combined system: the ledger-linked
`transfer`/`transferFrom`/`approve`/block-`mint`/`withdraw`, the
fee-forwarding variant's owner `mint` and `burn`, or a canister upgrade.
Operations whose model is an `Option` step only on a `some` result (a
`none` is a trap: the message is rolled back and the state does not
change). -/
inductive Step : State → State → Prop where
  | transfer (S : State) (caller to_ value time : Nat) (rr nr : InsertRes) :
      Step S (Token.transfer S caller to_ value time rr nr).1
  | transferFrom (S : State) (caller from_ to_ value time : Nat) (rr nr : InsertRes)
      (out : State × List TxRecord × TxReceipt)
      (h : Token.transfer_from S caller from_ to_ value time rr nr = some out) :
      Step S out.1
  | approve (S : State) (caller spender value time : Nat) (rr nr : InsertRes) :
      Step S (Token.approve S caller spender value time rr nr).1
  | mintBlock (S : State) (caller : Nat) (sub : Option Nat)
      (height selfPid time : Nat) (fetch : FetchRes) (rr nr : InsertRes)
      (out : State × List MEvent × List TxRecord × TxReceipt)
      (h : Token.mint S caller sub height selfPid fetch time rr nr = some out) :
      Step S out.1
  | mintOwner (S : State) (caller to_ amount time : Nat) (rr nr : InsertRes)
      (out : State × List TxRecord × TxReceipt)
      (h : RustToken.mint S caller to_ amount time rr nr = some out) :
      Step S out.1
  | burn (S : State) (caller amount time : Nat) (rr nr : InsertRes) :
      Step S (RustToken.burn S caller amount time rr nr).1
  | withdraw (S : State) (caller value time : Nat) (sendOk : Bool) (rr nr : InsertRes)
      (out : State × List TxRecord × TxReceipt)
      (h : Token.withdraw S caller value time sendOk rr nr = some out) :
      Step S out.1
  | upgrade (S : State) : Step S (upgradeRoundTrip S)

/-- States reachable from some `init` by any sequence of public operations
and upgrades. -/
inductive Reach : State → Prop where
  | init (logo name symbol : String) (decimals supply owner fee feeTo time : Nat) :
      Reach (Token.init logo name symbol decimals supply owner fee feeTo time)
  | step {S S' : State} (h1 : Reach S) (h2 : Step S S') : Reach S'

/-- The inductive invariant behind claim C1: the balance keys are distinct
and the stored balances sum to the recorded total supply. -/
def SupplyInv (S : State) : Prop :=
  keysNodup S.balances ∧ sumVals S.balances = S.stats.total_supply

theorem supplyInv_init (logo name symbol : String)
    (decimals supply owner fee feeTo time : Nat) :
    SupplyInv (Token.init logo name symbol decimals supply owner fee feeTo time) := by
  constructor
  · simp [Token.init, mapInsert, keysNodup]
  · simp [Token.init, mapInsert, sumVals]

theorem supplyInv_step {S S' : State} (hS : SupplyInv S) (hstep : Step S S') :
    SupplyInv S' := by
  obtain ⟨hnd, hsum⟩ := hS
  cases hstep with
  | transfer caller to_ value time rr nr =>
      by_cases hguard : balance_of S.balances caller < value + S.stats.fee
      · simp only [Token.transfer, if_pos hguard]
        exact ⟨hnd, hsum⟩
      · simp only [Token.transfer, if_neg hguard]
        push_neg at hguard
        refine ⟨keysNodup_transfer _ _ _ _ (keysNodup_charge_fee _ _ _ hnd), ?_⟩
        show sumVals (_transfer (_charge_fee S.stats S.balances caller) caller to_ value)
          = S.stats.total_supply
        rw [sumVals_transfer _ _ _ _ (balance_of_charge_fee_ge _ _ _ _ hguard hnd),
          sumVals_charge_fee _ _ _ (by omega)]
        exact hsum
  | transferFrom caller from_ to_ value time rr nr out h =>
      simp only [Token.transfer_from] at h
      split_ifs at h with h1 h2 <;>
        try (rw [Option.some_inj] at h; subst h; exact ⟨hnd, hsum⟩)
      push_neg at h2
      split at h <;>
        try exact Option.noConfusion h
      split at h <;>
        try exact Option.noConfusion h
      rw [Option.some_inj] at h
      subst h
      refine ⟨keysNodup_transfer _ _ _ _ (keysNodup_charge_fee _ _ _ hnd), ?_⟩
      show sumVals (_transfer (_charge_fee S.stats S.balances from_) from_ to_ value)
        = S.stats.total_supply
      rw [sumVals_transfer _ _ _ _ (balance_of_charge_fee_ge _ _ _ _ h2 hnd),
        sumVals_charge_fee _ _ _ (by omega)]
      exact hsum
  | approve caller spender value time rr nr =>
      by_cases hguard : balance_of S.balances caller < S.stats.fee
      · simp only [Token.approve, if_pos hguard]
        exact ⟨hnd, hsum⟩
      · simp only [Token.approve, if_neg hguard]
        push_neg at hguard
        refine ⟨keysNodup_charge_fee _ _ _ hnd, ?_⟩
        show sumVals (_charge_fee S.stats S.balances caller) = S.stats.total_supply
        rw [sumVals_charge_fee _ _ _ hguard]
        exact hsum
  | mintBlock caller sub height selfPid time fetch rr nr out h =>
      cases fetch with
      | err two =>
          simp only [Token.mint, Option.some_inj] at h
          subst h
          exact ⟨hnd, hsum⟩
      | ok two bd =>
          cases bd with
          | notTransfer =>
              simp only [Token.mint, Option.some_inj] at h
              subst h
              exact ⟨hnd, hsum⟩
          | transferOp bfrom bto bamount =>
              simp only [Token.mint] at h
              split_ifs at h <;>
                first
                | exact Option.noConfusion h
                | (rw [Option.some_inj] at h
                   subst h
                   exact ⟨hnd, hsum⟩)
                | (rw [Option.some_inj] at h
                   subst h
                   refine ⟨keysNodup_insert _ _ _ hnd, ?_⟩
                   show sumVals (mapInsert S.balances caller
                       (balance_of S.balances caller + bamount))
                     = S.stats.total_supply + bamount
                   have e1 := sumVals_insert S.balances caller
                     (balance_of S.balances caller + bamount)
                   omega)
  | mintOwner caller to_ amount time rr nr out h =>
      simp only [RustToken.mint] at h
      split_ifs at h <;>
        first
        | exact Option.noConfusion h
        | (rw [Option.some_inj] at h
           subst h
           refine ⟨keysNodup_insert _ _ _ hnd, ?_⟩
           show sumVals (mapInsert S.balances to_ (balance_of S.balances to_ + amount))
             = S.stats.total_supply + amount
           have e1 := sumVals_insert S.balances to_ (balance_of S.balances to_ + amount)
           omega)
  | burn caller amount time rr nr =>
      by_cases hguard : balance_of S.balances caller < amount
      · simp only [RustToken.burn, if_pos hguard]
        exact ⟨hnd, hsum⟩
      · simp only [RustToken.burn, if_neg hguard]
        push_neg at hguard
        refine ⟨keysNodup_insert _ _ _ hnd, ?_⟩
        show sumVals (mapInsert S.balances caller (balance_of S.balances caller - amount))
          = S.stats.total_supply - amount
        have e1 := sumVals_insert S.balances caller (balance_of S.balances caller - amount)
        omega
  | withdraw caller value time sendOk rr nr out h =>
      simp only [Token.withdraw] at h
      split_ifs at h with h1 h2 h3 h4 <;>
        first
        | exact Option.noConfusion h
        | (rw [Option.some_inj] at h
           subst h
           exact ⟨hnd, hsum⟩)
        | (rw [not_or] at h2
           rw [Option.some_inj] at h
           subst h
           refine ⟨keysNodup_insert _ _ _ hnd, ?_⟩
           show sumVals (mapInsert S.balances caller
               (balance_of S.balances caller - value))
             = S.stats.total_supply - value
           have e1 := sumVals_insert S.balances caller
             (balance_of S.balances caller - value)
           omega)
        | (rw [not_or] at h2
           rw [Option.some_inj] at h
           subst h
           refine ⟨keysNodup_insert _ _ _ (keysNodup_insert _ _ _ hnd), ?_⟩
           show sumVals (mapInsert
               (mapInsert S.balances caller (balance_of S.balances caller - value)) caller
               (balance_of (mapInsert S.balances caller
                 (balance_of S.balances caller - value)) caller + value))
             = S.stats.total_supply - value + value
           have e1 := sumVals_insert S.balances caller
             (balance_of S.balances caller - value)
           have e2 := sumVals_insert
             (mapInsert S.balances caller (balance_of S.balances caller - value)) caller
             (balance_of (mapInsert S.balances caller
               (balance_of S.balances caller - value)) caller + value)
           have e3 := balance_of_insert_self S.balances caller
             (balance_of S.balances caller - value)
           omega)
  | upgrade =>
      exact ⟨hnd, hsum⟩

/-! ## Zero-pruning -/

/-- No stored balance is zero. -/
def noZeros (m : Balances) : Prop := ∀ kv ∈ m, kv.2 ≠ 0

/-- No inner allowance map is empty, and no stored allowance is zero. -/
def noZeroAllowances (a : Allowances) : Prop :=
  ∀ ka ∈ a, ka.2 ≠ [] ∧ ∀ kv ∈ ka.2, kv.2 ≠ 0

/-- The zero-pruning invariant of claim C2: no entry of `Balances` and no
entry at either level of `Allowances` is zero-valued, and no inner
allowance map is empty. -/
def NoZeroState (S : State) : Prop :=
  noZeros S.balances ∧ noZeroAllowances S.allowances

instance (m : Balances) : Decidable (noZeros m) := by
  unfold noZeros
  infer_instance

instance (a : Allowances) : Decidable (noZeroAllowances a) := by
  unfold noZeroAllowances
  infer_instance

instance (S : State) : Decidable (NoZeroState S) := by
  unfold NoZeroState
  infer_instance

theorem mapLookup_mem {β : Type} (m : List (Principal × β)) (k : Principal) {v : β}
    (h : mapLookup m k = some v) : (k, v) ∈ m := by
  induction m with
  | nil => simp [mapLookup] at h
  | cons kv rest ih =>
      simp only [mapLookup] at h
      by_cases hk : kv.1 = k
      · rw [if_pos hk] at h
        injection h with h2
        cases kv with
        | mk k1 v1 =>
            simp only at hk h2
            subst hk
            subst h2
            exact List.mem_cons.2 (Or.inl rfl)
      · rw [if_neg hk] at h
        exact List.mem_cons.2 (Or.inr (ih h))

theorem mapInsert_ne_nil {β : Type} (m : List (Principal × β)) (k : Principal) (v : β) :
    mapInsert m k v ≠ [] := by
  cases m with
  | nil => simp [mapInsert]
  | cons kv rest =>
      simp only [mapInsert]
      split_ifs <;> simp

theorem noZeros_insert (m : Balances) (k : Principal) {v : Nat}
    (hm : noZeros m) (hv : v ≠ 0) : noZeros (mapInsert m k v) := by
  intro kv hkv
  rcases mem_mapInsert m k v hkv with h | h
  · rw [h]
    exact hv
  · exact hm kv h

theorem noZeros_remove (m : Balances) (k : Principal) (hm : noZeros m) :
    noZeros (mapRemove m k) :=
  fun kv hkv => hm kv (mem_mapRemove m k hkv)

theorem noZeros_transfer (m : Balances) (from_ to_ : Principal) (value : Nat)
    (hm : noZeros m) : noZeros (_transfer m from_ to_ value) := by
  simp only [_transfer]
  split_ifs with h1 h2 h3
  · exact noZeros_insert _ _ (noZeros_insert _ _ hm h1) h2
  · exact noZeros_insert _ _ hm h1
  · exact noZeros_insert _ _ (noZeros_remove _ _ hm) h3
  · exact noZeros_remove _ _ hm

theorem noZeros_charge_fee (stats : StatsData) (m : Balances) (user : Principal)
    (hm : noZeros m) : noZeros (_charge_fee stats m user) := by
  unfold _charge_fee
  split_ifs with h1
  · exact noZeros_transfer _ _ _ _ hm
  · exact hm

theorem balance_of_charge_fee_user (stats : StatsData) (m : Balances) {user : Principal}
    (hne : user ≠ stats.fee_to) (h : stats.fee ≤ balance_of m user) (hnd : keysNodup m) :
    balance_of (_charge_fee stats m user) user = balance_of m user - stats.fee := by
  unfold _charge_fee
  split_ifs with h1
  · exact balance_of_transfer_self m stats.fee hne hnd
  · omega

theorem balance_of_charge_fee_fee_to (stats : StatsData) (m : Balances) {user : Principal}
    (hne : user ≠ stats.fee_to) :
    balance_of (_charge_fee stats m user) stats.fee_to
      = balance_of m stats.fee_to + stats.fee := by
  unfold _charge_fee
  split_ifs with h1
  · exact balance_of_transfer_to m stats.fee hne
  · omega

theorem balance_of_charge_fee_other (stats : StatsData) (m : Balances)
    {user p : Principal} (hpu : p ≠ user) (hpf : p ≠ stats.fee_to) :
    balance_of (_charge_fee stats m user) p = balance_of m p := by
  unfold _charge_fee
  split_ifs with h1
  · exact balance_of_transfer_other m stats.fee hpu hpf
  · rfl

theorem allowance_pos_lookup (A : Allowances) (o s : Principal)
    (h : allowance A o s ≠ 0) :
    ∃ inner, mapLookup A o = some inner ∧ mapLookup inner s = some (allowance A o s) := by
  cases hlk : mapLookup A o with
  | none =>
      exfalso
      apply h
      unfold allowance
      simp only [hlk]
  | some inner =>
      cases hlk2 : mapLookup inner s with
      | none =>
          exfalso
          apply h
          unfold allowance
          simp only [hlk, hlk2]
      | some v =>
          refine ⟨inner, rfl, ?_⟩
          unfold allowance
          simp only [hlk, hlk2]

theorem noZeroAllowances_insert_inner (A : Allowances) (o s : Principal) {v : Nat}
    (inner : Balances) (hA : noZeroAllowances A) (hinner : mapLookup A o = some inner)
    (hv : v ≠ 0) : noZeroAllowances (mapInsert A o (mapInsert inner s v)) := by
  intro ka hka
  rcases mem_mapInsert A o (mapInsert inner s v) hka with h | h
  · rw [h]
    refine ⟨mapInsert_ne_nil _ _ _, ?_⟩
    intro kv hkv
    rcases mem_mapInsert inner s v hkv with h2 | h2
    · rw [h2]
      exact hv
    · exact (hA _ (mapLookup_mem A o hinner)).2 kv h2
  · exact hA ka h

theorem noZeroAllowances_insert_fresh (A : Allowances) (o s : Principal) {v : Nat}
    (hA : noZeroAllowances A) (hv : v ≠ 0) :
    noZeroAllowances (mapInsert A o [(s, v)]) := by
  intro ka hka
  rcases mem_mapInsert A o [(s, v)] hka with h | h
  · rw [h]
    refine ⟨by simp, ?_⟩
    intro kv hkv
    simp only [List.mem_singleton] at hkv
    rw [hkv]
    exact hv
  · exact hA ka h

theorem noZeroAllowances_remove (A : Allowances) (o : Principal)
    (hA : noZeroAllowances A) : noZeroAllowances (mapRemove A o) :=
  fun ka hka => hA ka (mem_mapRemove A o hka)

theorem noZeroAllowances_insert_pruned (A : Allowances) (o s : Principal)
    (inner : Balances) (hA : noZeroAllowances A) (hinner : mapLookup A o = some inner)
    (hne : mapRemove inner s ≠ []) :
    noZeroAllowances (mapInsert A o (mapRemove inner s)) := by
  intro ka hka
  rcases mem_mapInsert A o (mapRemove inner s) hka with h | h
  · rw [h]
    refine ⟨hne, ?_⟩
    intro kv hkv
    exact (hA _ (mapLookup_mem A o hinner)).2 kv (mem_mapRemove inner s hkv)
  · exact hA ka h

/-! ## Concrete scenario states -/

/-- The spec scenario state: `init(supply = 1000, owner = 7, fee = 1)` with
fee recipient `8`, deployed at time `5`. -/
def S1000 : State := Token.init "logo" "token" "TOKEN" 2 1000 7 1 8 5

/-- The same deployment with `fee = 0`. -/
def S1000f0 : State := Token.init "logo" "token" "TOKEN" 2 1000 7 0 8 5

/-- A deployment with a balance large enough for the withdraw scenario. -/
def Sbig : State := Token.init "logo" "token" "TOKEN" 2 1000000 7 1 8 5

/-! ## Claim C1 -/

/-- C1: for every state reachable by any sequence of init, transfer,
transferFrom, approve, mint (owner-gated or block-based), burn and
withdraw operations (and upgrades), the sum of all values in the Balances
map equals the recorded `total_supply`. -/
theorem C1_sum_balances_eq_total_supply (S : State) (h : Reach S) :
    sumVals S.balances = S.stats.total_supply := by
  have hInv : SupplyInv S := by
    induction h with
    | init logo name symbol decimals supply owner fee feeTo time =>
        exact supplyInv_init logo name symbol decimals supply owner fee feeTo time
    | step h1 h2 ih => exact supplyInv_step ih h2
  exact hInv.2

/-- Witness for C1 at a concrete reachable state: the scenario deployment
followed by one transfer. -/
theorem C1_sum_balances_eq_total_supply_witness :
    sumVals (Token.transfer S1000 7 9 10 6 .failed (.ok 1)).1.balances
      = (Token.transfer S1000 7 9 10 6 .failed (.ok 1)).1.stats.total_supply :=
  C1_sum_balances_eq_total_supply _
    (Reach.step (Reach.init "logo" "token" "TOKEN" 2 1000 7 1 8 5)
      (Step.transfer S1000 7 9 10 6 .failed (.ok 1)))

/-! ## Claim C2 -/

/-- C2 counterexample: from `init(supply = 1000, owner = 7, fee = 0)`,
`burn(1000)` by the owner stores the zero-valued balance entry
`7 ↦ 0` instead of removing the key, refuting the claim that no entry of
the Balances map is ever zero after a public operation. -/
theorem C2_counterexample_burn_stores_zero :
    mapLookup (RustToken.burn S1000f0 7 1000 6 .failed (.ok 1)).1.balances 7
      = some 0 := by
  rfl

/-- C2 (amended): the zero-pruning invariant - no zero-valued entry in
Balances or either level of Allowances, no empty inner allowance map - is
preserved by `transfer`, `transferFrom` and `approve` (whose balance
updates go through the pruning `_transfer` primitive and whose allowance
updates prune explicitly); it is *not* maintained by `burn`, `mint` and
`withdraw`, which insert balances unconditionally (see the
counterexample). -/
theorem C2_amended_zero_pruning_transfer_ops (S : State) (hS : NoZeroState S) :
    (∀ caller to_ value time rr nr,
        NoZeroState (Token.transfer S caller to_ value time rr nr).1)
  ∧ (∀ caller from_ to_ value time rr nr out,
        Token.transfer_from S caller from_ to_ value time rr nr = some out →
        NoZeroState out.1)
  ∧ (∀ caller spender value time rr nr,
        NoZeroState (Token.approve S caller spender value time rr nr).1) := by
  obtain ⟨hb, ha⟩ := hS
  refine ⟨?_, ?_, ?_⟩
  · intro caller to_ value time rr nr
    by_cases hguard : balance_of S.balances caller < value + S.stats.fee
    · simp only [Token.transfer, if_pos hguard]
      exact ⟨hb, ha⟩
    · simp only [Token.transfer, if_neg hguard]
      exact ⟨noZeros_transfer _ _ _ _ (noZeros_charge_fee _ _ _ hb), ha⟩
  · intro caller from_ to_ value time rr nr out h
    simp only [Token.transfer_from] at h
    split_ifs at h with h1 h2 <;>
      try (rw [Option.some_inj] at h; subst h; exact ⟨hb, ha⟩)
    split at h
    · exact Option.noConfusion h
    · rename_i inner heq
      split at h
      · exact Option.noConfusion h
      · rename_i result heq2
        rw [Option.some_inj] at h
        subst h
        refine ⟨noZeros_transfer _ _ _ _ (noZeros_charge_fee _ _ _ hb), ?_⟩
        show noZeroAllowances
          (if result - value - S.stats.fee ≠ 0 then
            mapInsert S.allowances from_
              (mapInsert inner caller (result - value - S.stats.fee))
          else
            if (mapRemove inner caller).length = 0 then mapRemove S.allowances from_
            else mapInsert S.allowances from_ (mapRemove inner caller))
        split_ifs with hz hlen
        · exact noZeroAllowances_insert_inner _ _ _ _ ha heq hz
        · exact noZeroAllowances_remove _ _ ha
        · refine noZeroAllowances_insert_pruned _ _ _ _ ha heq ?_
          intro hnil
          exact hlen (by rw [hnil]; rfl)
  · intro caller spender value time rr nr
    by_cases hguard : balance_of S.balances caller < S.stats.fee
    · simp only [Token.approve, if_pos hguard]
      exact ⟨hb, ha⟩
    · cases hlk : mapLookup S.allowances caller with
      | some inner =>
          simp only [Token.approve, if_neg hguard, hlk]
          refine ⟨noZeros_charge_fee _ _ _ hb, ?_⟩
          show noZeroAllowances
            (if value + S.stats.fee ≠ 0 then
              mapInsert S.allowances caller
                (mapInsert inner spender (value + S.stats.fee))
            else
              if (mapRemove inner spender).length = 0 then mapRemove S.allowances caller
              else mapInsert S.allowances caller (mapRemove inner spender))
          split_ifs with hz hlen
          · exact noZeroAllowances_insert_inner _ _ _ _ ha hlk hz
          · exact noZeroAllowances_remove _ _ ha
          · refine noZeroAllowances_insert_pruned _ _ _ _ ha hlk ?_
            intro hnil
            exact hlen (by rw [hnil]; rfl)
      | none =>
          simp only [Token.approve, if_neg hguard, hlk]
          refine ⟨noZeros_charge_fee _ _ _ hb, ?_⟩
          show noZeroAllowances
            (if value + S.stats.fee ≠ 0 then
              mapInsert S.allowances caller [(spender, value + S.stats.fee)]
            else S.allowances)
          split_ifs with hz
          · exact noZeroAllowances_insert_fresh _ _ _ ha hz
          · exact ha

/-- Witness for the amended C2 at the scenario deployment. -/
theorem C2_amended_zero_pruning_transfer_ops_witness :
    NoZeroState (Token.transfer S1000 7 9 10 6 .failed (.ok 1)).1 :=
  (C2_amended_zero_pruning_transfer_ops S1000 (by decide)).1 7 9 10 6 .failed (.ok 1)

/-! ## Claim C3 -/

/-- Concrete audit records for the outbox scenario. -/
def recA : TxRecord :=
  { caller := some 7, index := 0, from_ := 7, to_ := 9, amount := 10, fee := 1,
    timestamp := 6, status := .Succeeded, operation := .Transfer }

/-- A second queued audit record. -/
def recB : TxRecord := { recA with amount := 20, timestamp := 7 }

/-- The freshly submitted audit record. -/
def recC : TxRecord := { recA with amount := 30, timestamp := 8 }

/-- C3 (code-bug evaluation): with the queue holding the two previously
failed records `recA, recB`, submitting `recC` when the retry of `recA`
fails and the insert of `recC` succeeds leaves the `src/rust/token`
queue as `[recA]`: `recB` has been silently dropped (the `RefCell::take`
in its `insert_into_cap` never restores the tail of the queue).  The
in-place `insert_into_cap` of `src/token` / `src/rust/src` keeps it:
the queue ends as `[recB, recA]`. -/
theorem C3_rust_token_outbox_drops_queued_record :
    insert_into_cap_rt [recA, recB] recC .failed (.ok 5) = ([recA], .ok 5)
  ∧ insert_into_cap [recA, recB] recC .failed (.ok 5) = ([recB, recA], .ok 5)
  ∧ recB ∉ (insert_into_cap_rt [recA, recB] recC .failed (.ok 5)).1 := by
  refine ⟨rfl, rfl, ?_⟩
  decide

/-! ## Claim C4 -/

/-- C4 (code-bug evaluation): the ledger-linked `pre_upgrade`/`post_upgrade`
pair restores stats, balances, allowances, the used-block set and the
outbox verbatim, but the genesis record is not part of the stable-store
tuple and comes back as `Default::default()`; the round trip is therefore
not the identity on any state whose genesis differs from the default -
in particular on the state produced by `init`. -/
theorem C4_upgrade_roundtrip_loses_genesis :
    (∀ T : State,
        (upgradeRoundTrip T).stats = T.stats ∧
        (upgradeRoundTrip T).balances = T.balances ∧
        (upgradeRoundTrip T).allowances = T.allowances ∧
        (upgradeRoundTrip T).usedBlocks = T.usedBlocks ∧
        (upgradeRoundTrip T).txLog = T.txLog ∧
        (upgradeRoundTrip T).genesis = genesisDefault)
  ∧ S1000.genesis ≠ genesisDefault
  ∧ upgradeRoundTrip S1000 ≠ S1000 := by
  refine ⟨fun T => ⟨rfl, rfl, rfl, rfl, rfl, rfl⟩, by decide, ?_⟩
  intro hcontra
  have hg : (upgradeRoundTrip S1000).genesis = S1000.genesis := by rw [hcontra]
  revert hg
  decide

/-! ## Claim C5 -/

/-- C5: a `withdraw` whose external ledger send fails restores the caller's
balance and `total_supply` exactly - the resulting state *is* the
pre-call state - returns `LedgerTrap`, emits no audit record, and leaves
`history_size` unchanged. -/
theorem C5_withdraw_rollback_on_failed_send (S : State) (caller : Principal)
    (value time : Nat) (rr nr : InsertRes)
    (hbal : value ≤ balance_of S.balances caller)
    (hsup : value ≤ S.stats.total_supply)
    (hfee : ICPFEE ≤ value) :
    Token.withdraw S caller value time false rr nr = some (S, [], .err .LedgerTrap) := by
  have hfee10 : (10000 : Nat) ≤ value := hfee
  have hcb0 : balance_of S.balances caller ≠ 0 := by omega
  have hlk := mapLookup_of_balance_pos S.balances caller hcb0
  simp only [Token.withdraw]
  rw [if_neg (by unfold THRESHOLD; omega)]
  rw [if_neg (by push_neg; omega)]
  rw [if_neg (by unfold ICPFEE; omega)]
  rw [if_neg Bool.false_ne_true]
  rw [balance_of_insert_self, mapInsert_mapInsert]
  rw [show balance_of S.balances caller - value + value
      = balance_of S.balances caller from by omega]
  rw [mapInsert_same_value _ _ _ hlk]
  rw [show S.stats.total_supply - value + value = S.stats.total_supply from by omega]

/-- Witness for C5: a failed 20000-e8s withdraw from the large deployment
rolls back to the exact pre-call state. -/
theorem C5_withdraw_rollback_on_failed_send_witness :
    Token.withdraw Sbig 7 20000 6 false .failed (.ok 1)
      = some (Sbig, [], .err .LedgerTrap) :=
  C5_withdraw_rollback_on_failed_send Sbig 7 20000 6 .failed (.ok 1)
    (by decide) (by decide) (by decide)

/-! ## Claim C9 -/

/-- C9: a `transfer` whose caller lacks `value + fee` returns
`InsufficientBalance` and changes nothing: the whole state (balances,
allowances, `total_supply`, `history_size`, outbox) is returned
untouched. -/
theorem C9_transfer_insufficient_balance_no_change (S : State)
    (caller to_ : Principal) (value time : Nat) (rr nr : InsertRes)
    (h : balance_of S.balances caller < value + S.stats.fee) :
    Token.transfer S caller to_ value time rr nr
      = (S, [], .err .InsufficientBalance) := by
  simp only [Token.transfer, if_pos h]

/-- Witness for C9: account 9 holds nothing in the scenario deployment, so
its transfer of 5 fails without touching the state. -/
theorem C9_transfer_insufficient_balance_no_change_witness :
    Token.transfer S1000 9 3 5 6 .failed (.ok 1)
      = (S1000, [], .err .InsufficientBalance) :=
  C9_transfer_insufficient_balance_no_change S1000 9 3 5 6 .failed (.ok 1) (by decide)

/-! ## Claim C6 -/

/-- External calls in a mint trace: ledger block fetches and the cap
insert. -/
def isExtCall : MEvent → Bool
  | .fetchCall => true
  | .capCall => true
  | _ => false

/-- The used-block insertion event. -/
def isInsertBlock : MEvent → Bool
  | .insertBlock => true
  | _ => false

/-- The ordering property asserted by claim C6 for a mint trace: the
used-block insertion occurs before the first external call (vacuously
true when no insertion occurs). -/
def insertPrecedesExtCalls (tr : List MEvent) : Bool :=
  match tr.findIdx? isInsertBlock, tr.findIdx? isExtCall with
  | some i, some e => decide (i < e)
  | _, _ => true

/-- C6 counterexample: a successful block-based mint produces the trace
`[fetchCall, insertBlock, mutateState, capCall]` - the first event is
the external block fetch, and the block height is only inserted *after*
it, refuting the claim that the insertion precedes the operation's first
external call / suspension point. -/
theorem C6_counterexample_insert_after_first_call :
    (Token.mint S1000 9 none 42 20 (.ok false (.transferOp (9, none) (20, none) 500))
        6 .failed (.ok 3)).elim false (fun out => insertPrecedesExtCalls out.2.1)
      = false
  ∧ (Token.mint S1000 9 none 42 20 (.ok false (.transferOp (9, none) (20, none) 500))
        6 .failed (.ok 3)).isSome = true := by
  constructor <;> rfl

/-- C6 (amended): in every run of the block-based `mint`, the only events
preceding the used-block insertion are the external block fetch calls:
the insertion happens after the fetch(es) but before the balance/supply
mutation and before the final cap call, i.e. before every *subsequent*
suspension point. -/
theorem C6_amended_insert_before_mutation_and_cap (S : State) (caller : Principal)
    (sub : Option Nat) (height selfPid time : Nat) (fetch : FetchRes)
    (rr nr : InsertRes) :
    (((Token.mint S caller sub height selfPid fetch time rr nr).elim []
        (fun out => out.2.1)).takeWhile
          (fun e => decide (e ≠ MEvent.insertBlock))).all
      (fun e => decide (e = MEvent.fetchCall)) = true := by
  cases fetch with
  | err two => cases two <;> rfl
  | ok two bd =>
      cases bd with
      | notTransfer => cases two <;> rfl
      | transferOp bfrom bto bamount =>
          by_cases hmem : height ∈ S.usedBlocks
          · simp [Token.mint, hmem]
          · cases two <;>
              · simp only [Token.mint, if_pos hmem, if_neg hmem]
                split_ifs <;> rfl

/-! ## Claim C10 -/

theorem insertDesc_length (x : Principal × Nat) (l : List (Principal × Nat)) :
    (insertDesc x l).length = l.length + 1 := by
  induction l with
  | nil => rfl
  | cons y ys ih =>
      simp only [insertDesc]
      split_ifs <;> simp [ih]

theorem sortDesc_length (l : List (Principal × Nat)) :
    (sortDesc l).length = l.length := by
  induction l with
  | nil => rfl
  | cons x xs ih => simp [sortDesc, insertDesc_length, ih]

/-- C10 counterexample: with a single holder, `get_holders(start := 2,
limit := 0)` traps - `balance.len() - start` underflows `usize` and the
resulting slice bounds are invalid - refuting the claim that the
read-only queries have no failure mode for every input. -/
theorem C10_counterexample_get_holders_traps :
    get_holders S1000.balances 2 0 = none := by
  rfl

/-- C10 (amended): `balanceOf`, `allowance`, `getMetadata` and
`getTokenInfo` are total by construction; `get_holders` returns a value
whenever `start` does not exceed the number of holders (and the
arguments do not overflow the `usize` width); for `start` beyond the
holder count it traps (see the counterexample). -/
theorem C10_amended_get_holders_total (balances : Balances) (start limit : Nat)
    (hlen : balances.length < USIZE)
    (hstart : start ≤ balances.length)
    (hlim : start + limit < USIZE) :
    (get_holders balances start limit).isSome = true := by
  have hn : (sortDesc balances).length = balances.length := sortDesc_length balances
  have hmod : (start + limit) % USIZE = start + limit := Nat.mod_eq_of_lt hlim
  simp only [get_holders]
  rw [hmod]
  by_cases hgt : start + limit > (sortDesc balances).length
  · rw [if_pos hgt]
    have e1 : (sortDesc balances).length + USIZE - start
        = ((sortDesc balances).length - start) + USIZE := by omega
    have e2 : (((sortDesc balances).length - start) + USIZE) % USIZE
        = (sortDesc balances).length - start := by
      rw [Nat.add_mod_right]
      exact Nat.mod_eq_of_lt (by omega)
    have e3 : (start + ((sortDesc balances).length - start)) % USIZE
        = (sortDesc balances).length := by
      rw [show start + ((sortDesc balances).length - start)
          = (sortDesc balances).length from by omega]
      exact Nat.mod_eq_of_lt (by omega)
    rw [e1, e2, e3]
    rw [if_pos ⟨by omega, le_refl _⟩]
    rfl
  · rw [if_neg hgt]
    rw [hmod]
    rw [if_pos ⟨by omega, by omega⟩]
    rfl

/-- Witness for the amended C10 at the scenario deployment. -/
theorem C10_amended_get_holders_total_witness :
    (get_holders S1000.balances 0 10).isSome = true :=
  C10_amended_get_holders_total S1000.balances 0 10 (by decide) (by decide) (by decide)

/-! ## Claim C8 -/

/-- C8 counterexample: in the basic variant (`src/rust/src/main.rs`), the
scenario transfer performs effects (1)-(3) - the scenario balances and
history counter come out exactly as claimed - but hands *no* audit
record to the outbox (its `transfer` contains no `add_record` call), so
the claimed effect (4) does not happen there. -/
theorem C8_counterexample_rust_src_transfer_emits_no_record :
    (RustSrc.transfer S1000 7 9 10).2.1 = []
  ∧ balance_of (RustSrc.transfer S1000 7 9 10).1.balances 7 = 989
  ∧ balance_of (RustSrc.transfer S1000 7 9 10).1.balances 9 = 10
  ∧ balance_of (RustSrc.transfer S1000 7 9 10).1.balances 8 = 1
  ∧ (RustSrc.transfer S1000 7 9 10).1.stats.history_size = 2 := by
  decide

/-- C8 (amended): in the cap-audited variants, a funded `transfer` (with
`caller`, `to` and the fee recipient pairwise distinct) moves the fee to
the fee recipient and `value` to `to` through the same pruning
`_transfer` primitive (which charges no further fee), increments the
history counter, leaves the supply and the allowances untouched, and
emits exactly one `Transfer` record `{caller, from := caller, to,
amount := value, fee}`. -/
theorem C8_amended_transfer_ordered_effects (S : State) (caller to_ : Principal)
    (value time : Nat) (rr nr : InsertRes)
    (hnd : keysNodup S.balances)
    (hbal : value + S.stats.fee ≤ balance_of S.balances caller)
    (hct : caller ≠ to_) (hcf : caller ≠ S.stats.fee_to) (htf : to_ ≠ S.stats.fee_to) :
    balance_of (Token.transfer S caller to_ value time rr nr).1.balances caller
        + value + S.stats.fee = balance_of S.balances caller
  ∧ balance_of (Token.transfer S caller to_ value time rr nr).1.balances to_
        = balance_of S.balances to_ + value
  ∧ balance_of (Token.transfer S caller to_ value time rr nr).1.balances S.stats.fee_to
        = balance_of S.balances S.stats.fee_to + S.stats.fee
  ∧ (∀ p : Principal, p ≠ caller → p ≠ to_ → p ≠ S.stats.fee_to →
        balance_of (Token.transfer S caller to_ value time rr nr).1.balances p
          = balance_of S.balances p)
  ∧ (Token.transfer S caller to_ value time rr nr).1.stats.history_size
        = S.stats.history_size + 1
  ∧ (Token.transfer S caller to_ value time rr nr).1.stats.total_supply
        = S.stats.total_supply
  ∧ (Token.transfer S caller to_ value time rr nr).1.allowances = S.allowances
  ∧ (Token.transfer S caller to_ value time rr nr).2.1
        = [{ caller := some caller, index := 0, from_ := caller, to_ := to_,
             amount := value, fee := S.stats.fee, timestamp := time,
             status := .Succeeded, operation := .Transfer }] := by
  have hguard : ¬ balance_of S.balances caller < value + S.stats.fee := by omega
  have hb1c : balance_of (_charge_fee S.stats S.balances caller) caller
      = balance_of S.balances caller - S.stats.fee :=
    balance_of_charge_fee_user S.stats S.balances hcf (by omega) hnd
  have hb1t : balance_of (_charge_fee S.stats S.balances caller) to_
      = balance_of S.balances to_ :=
    balance_of_charge_fee_other S.stats S.balances (fun hh => hct hh.symm) htf
  have hb1f : balance_of (_charge_fee S.stats S.balances caller) S.stats.fee_to
      = balance_of S.balances S.stats.fee_to + S.stats.fee :=
    balance_of_charge_fee_fee_to S.stats S.balances hcf
  have hnd1 : keysNodup (_charge_fee S.stats S.balances caller) :=
    keysNodup_charge_fee _ _ _ hnd
  simp only [Token.transfer, if_neg hguard]
  refine ⟨?_, ?_, ?_, ?_, by trivial, by trivial, by trivial, by trivial⟩
  · show balance_of (_transfer (_charge_fee S.stats S.balances caller) caller to_ value)
        caller + value + S.stats.fee = balance_of S.balances caller
    rw [balance_of_transfer_self _ value hct hnd1, hb1c]
    omega
  · show balance_of (_transfer (_charge_fee S.stats S.balances caller) caller to_ value)
        to_ = balance_of S.balances to_ + value
    rw [balance_of_transfer_to _ value hct, hb1t]
  · show balance_of (_transfer (_charge_fee S.stats S.balances caller) caller to_ value)
        S.stats.fee_to = balance_of S.balances S.stats.fee_to + S.stats.fee
    rw [balance_of_transfer_other _ value (fun hh => hcf hh.symm) (fun hh => htf hh.symm),
      hb1f]
  · intro p hp1 hp2 hp3
    show balance_of (_transfer (_charge_fee S.stats S.balances caller) caller to_ value)
        p = balance_of S.balances p
    rw [balance_of_transfer_other _ value hp1 hp2,
      balance_of_charge_fee_other S.stats S.balances hp1 hp3]

/-- Witness for the amended C8: the spec scenario
`init(supply = 1000, owner = 7, fee = 1)` followed by `transfer(7 → 9, 10)`
yields balances 989 / 10 / 1 and history size 2, with the single emitted
`Transfer` record. -/
theorem C8_amended_transfer_ordered_effects_witness :
    balance_of (Token.transfer S1000 7 9 10 6 .failed (.ok 1)).1.balances 7 = 989
  ∧ balance_of (Token.transfer S1000 7 9 10 6 .failed (.ok 1)).1.balances 9 = 10
  ∧ balance_of (Token.transfer S1000 7 9 10 6 .failed (.ok 1)).1.balances 8 = 1
  ∧ (Token.transfer S1000 7 9 10 6 .failed (.ok 1)).1.stats.history_size = 2
  ∧ (Token.transfer S1000 7 9 10 6 .failed (.ok 1)).2.1
      = [{ caller := some 7, index := 0, from_ := 7, to_ := 9, amount := 10, fee := 1,
           timestamp := 6, status := .Succeeded, operation := .Transfer }] := by
  have h := C8_amended_transfer_ordered_effects S1000 7 9 10 6 .failed (.ok 1)
    (by decide) (by decide) (by decide) (by decide) (by decide)
  obtain ⟨h1, h2, h3, _, h5, _, _, h8⟩ := h
  have hf : S1000.stats.fee = 1 := rfl
  have hft : S1000.stats.fee_to = 8 := rfl
  have hb7 : balance_of S1000.balances 7 = 1000 := rfl
  have hb9 : balance_of S1000.balances 9 = 0 := rfl
  have hb8 : balance_of S1000.balances 8 = 0 := rfl
  have hh : S1000.stats.history_size = 1 := rfl
  rw [hf, hb7] at h1
  rw [hb9] at h2
  rw [hft, hf, hb8] at h3
  rw [hh] at h5
  rw [hf] at h8
  exact ⟨by omega, by omega, h3, h5, h8⟩

/-! ## Claim C7 -/

/-- The literal nested lookup of an allowance entry: `none` when either
level of the map lacks the key (distinguishing a stored `0` from an
absent entry). -/
def allowanceEntry (a : Allowances) (o s : Principal) : Option Nat :=
  match mapLookup a o with
  | none => none
  | some inner => mapLookup inner s

theorem allowance_insert_self (A : Allowances) (o s : Principal) (inner : Balances) :
    allowance (mapInsert A o inner) o s = balance_of inner s := by
  unfold allowance balance_of
  rw [mapLookup_insert_self]

theorem allowance_insert_ne (A : Allowances) {o o' : Principal} (inner : Balances)
    (s : Principal) (h : o' ≠ o) :
    allowance (mapInsert A o inner) o' s = allowance A o' s := by
  unfold allowance
  rw [mapLookup_insert_ne A inner h]

theorem allowance_remove_self (A : Allowances) (o s : Principal)
    (hnd : keysNodup A) : allowance (mapRemove A o) o s = 0 := by
  unfold allowance
  rw [mapLookup_remove_self A o hnd]

theorem allowance_remove_ne (A : Allowances) {o o' : Principal} (s : Principal)
    (h : o' ≠ o) : allowance (mapRemove A o) o' s = allowance A o' s := by
  unfold allowance
  rw [mapLookup_remove_ne A h]

theorem allowance_eq_inner (A : Allowances) (o s : Principal) (inner : Balances)
    (h : mapLookup A o = some inner) : allowance A o s = balance_of inner s := by
  unfold allowance balance_of
  rw [h]

/-- C7 counterexample: with `fee = 0`, `transferFrom(from := 7, to := 3,
value := 0)` by caller `9` passes both guards (`allowance = 0 ≥ 0 + 0`,
`balance ≥ 0`) but the `(7, 9)` allowance entry does not exist, so the
source panics on `inner.get(&owner).unwrap()` / `assert!(false)` instead
of performing the claimed success effects. -/
theorem C7_counterexample_transfer_from_traps :
    Token.transfer_from S1000f0 9 7 3 0 6 .failed (.ok 1) = none := by
  rfl

/-- C7 (amended): the guard order and effects are as claimed, with one
qualification: the success case additionally requires the `(from,
caller)` allowance *entry* to exist - guaranteed whenever
`value + fee > 0` - because the source unwraps it; when `value + fee = 0`
and the entry is absent the call traps instead (see the counterexample).
Under the guards (and pairwise-distinct `from`/`to`/fee-recipient for
the balance equations), `transferFrom` charges the fee from `from`,
moves `value` from `from` to `to`, decrements the `(from, caller)`
allowance by exactly `value + fee` - removing the entry, and the
emptied inner map, when it reaches zero - increments the history
counter, and emits one `TransferFrom` record with the caller recorded as
initiator. -/
theorem C7_amended_transfer_from_spec (S : State) (caller from_ to_ : Principal)
    (value time : Nat) (rr nr : InsertRes) :
    (allowance S.allowances from_ caller < value + S.stats.fee →
        Token.transfer_from S caller from_ to_ value time rr nr
          = some (S, [], .err .InsufficientAllowance))
  ∧ (value + S.stats.fee ≤ allowance S.allowances from_ caller →
     balance_of S.balances from_ < value + S.stats.fee →
        Token.transfer_from S caller from_ to_ value time rr nr
          = some (S, [], .err .InsufficientBalance))
  ∧ (keysNodup S.balances → keysNodup S.allowances →
     (∀ ka ∈ S.allowances, keysNodup ka.2) →
     value + S.stats.fee ≤ allowance S.allowances from_ caller →
     value + S.stats.fee ≤ balance_of S.balances from_ →
     0 < value + S.stats.fee →
     from_ ≠ to_ → from_ ≠ S.stats.fee_to → to_ ≠ S.stats.fee_to →
     (Token.transfer_from S caller from_ to_ value time rr nr).isSome = true
     ∧ ∀ out, Token.transfer_from S caller from_ to_ value time rr nr = some out →
         (balance_of out.1.balances from_ + value + S.stats.fee
             = balance_of S.balances from_
          ∧ balance_of out.1.balances to_ = balance_of S.balances to_ + value
          ∧ balance_of out.1.balances S.stats.fee_to
              = balance_of S.balances S.stats.fee_to + S.stats.fee
          ∧ allowance out.1.allowances from_ caller + (value + S.stats.fee)
              = allowance S.allowances from_ caller
          ∧ (allowance S.allowances from_ caller = value + S.stats.fee →
              allowanceEntry out.1.allowances from_ caller = none)
          ∧ (∀ o s : Principal, o ≠ from_ →
              allowance out.1.allowances o s = allowance S.allowances o s)
          ∧ (∀ s : Principal, s ≠ caller →
              allowance out.1.allowances from_ s = allowance S.allowances from_ s)
          ∧ out.1.stats.history_size = S.stats.history_size + 1
          ∧ out.1.stats.total_supply = S.stats.total_supply
          ∧ out.2.1 = [{ caller := some caller, index := 0, from_ := from_,
                           to_ := to_, amount := value, fee := S.stats.fee,
                           timestamp := time, status := .Succeeded,
                           operation := .TransferFrom }])) := by
  refine ⟨?_, ?_, ?_⟩
  · intro h1
    simp only [Token.transfer_from, if_pos h1]
  · intro hA hB
    have h1 : ¬ allowance S.allowances from_ caller < value + S.stats.fee := by omega
    simp only [Token.transfer_from, if_neg h1, if_pos hB]
  · intro hnd hndA hinners hA hB hpos hfr_to hfr_fee hto_fee
    have hpos0 : allowance S.allowances from_ caller ≠ 0 := by omega
    obtain ⟨inner, heq, heq2⟩ := allowance_pos_lookup S.allowances from_ caller hpos0
    have hndInner : keysNodup inner := hinners _ (mapLookup_mem S.allowances from_ heq)
    have hgA : ¬ allowance S.allowances from_ caller < value + S.stats.fee := by omega
    have hgB : ¬ balance_of S.balances from_ < value + S.stats.fee := by omega
    have hb1c : balance_of (_charge_fee S.stats S.balances from_) from_
        = balance_of S.balances from_ - S.stats.fee :=
      balance_of_charge_fee_user S.stats S.balances hfr_fee (by omega) hnd
    have hb1t : balance_of (_charge_fee S.stats S.balances from_) to_
        = balance_of S.balances to_ :=
      balance_of_charge_fee_other S.stats S.balances (fun hh => hfr_to hh.symm) hto_fee
    have hb1f : balance_of (_charge_fee S.stats S.balances from_) S.stats.fee_to
        = balance_of S.balances S.stats.fee_to + S.stats.fee :=
      balance_of_charge_fee_fee_to S.stats S.balances hfr_fee
    have hnd1 : keysNodup (_charge_fee S.stats S.balances from_) :=
      keysNodup_charge_fee _ _ _ hnd
    constructor
    · simp only [Token.transfer_from, if_neg hgA, if_neg hgB, heq, heq2]
      rfl
    · intro out hout
      simp only [Token.transfer_from, if_neg hgA, if_neg hgB, heq, heq2] at hout
      rw [Option.some_inj] at hout
      subst hout
      refine ⟨?_, ?_, ?_, ?_, ?_, ?_, ?_, by trivial, by trivial, by trivial⟩
      · show balance_of (_transfer (_charge_fee S.stats S.balances from_) from_ to_ value)
            from_ + value + S.stats.fee = balance_of S.balances from_
        rw [balance_of_transfer_self _ value hfr_to hnd1, hb1c]
        omega
      · show balance_of (_transfer (_charge_fee S.stats S.balances from_) from_ to_ value)
            to_ = balance_of S.balances to_ + value
        rw [balance_of_transfer_to _ value hfr_to, hb1t]
      · show balance_of (_transfer (_charge_fee S.stats S.balances from_) from_ to_ value)
            S.stats.fee_to = balance_of S.balances S.stats.fee_to + S.stats.fee
        rw [balance_of_transfer_other _ value (fun hh => hfr_fee hh.symm)
          (fun hh => hto_fee hh.symm), hb1f]
      · show allowance
            (if allowance S.allowances from_ caller - value - S.stats.fee ≠ 0 then
               mapInsert S.allowances from_
                 (mapInsert inner caller
                   (allowance S.allowances from_ caller - value - S.stats.fee))
             else
               if (mapRemove inner caller).length = 0 then mapRemove S.allowances from_
               else mapInsert S.allowances from_ (mapRemove inner caller))
            from_ caller + (value + S.stats.fee) = allowance S.allowances from_ caller
        split_ifs with hz hlen
        · rw [allowance_insert_self, balance_of_insert_self]
          omega
        · rw [not_not] at hz
          rw [allowance_remove_self S.allowances from_ caller hndA]
          omega
        · rw [not_not] at hz
          rw [allowance_insert_self, balance_of_remove_self _ _ hndInner]
          omega
      · intro haz
        show allowanceEntry
            (if allowance S.allowances from_ caller - value - S.stats.fee ≠ 0 then
               mapInsert S.allowances from_
                 (mapInsert inner caller
                   (allowance S.allowances from_ caller - value - S.stats.fee))
             else
               if (mapRemove inner caller).length = 0 then mapRemove S.allowances from_
               else mapInsert S.allowances from_ (mapRemove inner caller))
            from_ caller = none
        have hz : ¬ (allowance S.allowances from_ caller - value - S.stats.fee ≠ 0) := by
          rw [not_not]
          omega
        rw [if_neg hz]
        split_ifs with hlen
        · unfold allowanceEntry
          rw [mapLookup_remove_self S.allowances from_ hndA]
        · unfold allowanceEntry
          rw [mapLookup_insert_self]
          exact mapLookup_remove_self inner caller hndInner
      · intro o s ho
        show allowance
            (if allowance S.allowances from_ caller - value - S.stats.fee ≠ 0 then
               mapInsert S.allowances from_
                 (mapInsert inner caller
                   (allowance S.allowances from_ caller - value - S.stats.fee))
             else
               if (mapRemove inner caller).length = 0 then mapRemove S.allowances from_
               else mapInsert S.allowances from_ (mapRemove inner caller))
            o s = allowance S.allowances o s
        split_ifs with hz hlen
        · rw [allowance_insert_ne _ _ _ ho]
        · rw [allowance_remove_ne _ _ ho]
        · rw [allowance_insert_ne _ _ _ ho]
      · intro s hs
        show allowance
            (if allowance S.allowances from_ caller - value - S.stats.fee ≠ 0 then
               mapInsert S.allowances from_
                 (mapInsert inner caller
                   (allowance S.allowances from_ caller - value - S.stats.fee))
             else
               if (mapRemove inner caller).length = 0 then mapRemove S.allowances from_
               else mapInsert S.allowances from_ (mapRemove inner caller))
            from_ s = allowance S.allowances from_ s
        rw [allowance_eq_inner S.allowances from_ s inner heq]
        split_ifs with hz hlen
        · rw [allowance_insert_self, balance_of_insert_ne _ _ hs]
        · rw [allowance_remove_self S.allowances from_ s hndA]
          rcases mapRemove_eq_nil_inv inner caller (List.length_eq_zero.mp hlen)
            with hnil | ⟨w, hw⟩
          · rw [hnil] at heq2
            simp [mapLookup] at heq2
          · rw [hw]
            unfold balance_of
            simp only [mapLookup]
            rw [if_neg (fun hh => hs hh.symm)]
        · rw [allowance_insert_self]
          exact balance_of_remove_ne inner hs

/-- The spec scenario `approve(7, spender := 9, 100)` with fee 1, giving
`allowance(7, 9) = 101`. -/
def Sap : State := (Token.approve S1000 7 9 100 6 .failed (.ok 1)).1

/-- Witness for the amended C7: after the scenario approve, a
`transferFrom(9, 7 → 3, 5)` with fee 1 succeeds and the `(7, 9)`
allowance decreases by exactly 6, to 95. -/
theorem C7_amended_transfer_from_spec_witness :
    (Token.transfer_from Sap 9 7 3 5 7 .failed (.ok 2)).isSome = true
  ∧ ∀ out, Token.transfer_from Sap 9 7 3 5 7 .failed (.ok 2) = some out →
      allowance out.1.allowances 7 9 = 95
      ∧ balance_of out.1.balances 7 + 6 = balance_of Sap.balances 7
      ∧ out.1.stats.history_size = Sap.stats.history_size + 1 := by
  have h := (C7_amended_transfer_from_spec Sap 9 7 3 5 7 .failed (.ok 2)).2.2
    (by decide) (by decide) (by decide) (by decide) (by decide) (by decide)
    (by decide) (by decide) (by decide)
  obtain ⟨hsome, hout⟩ := h
  refine ⟨hsome, ?_⟩
  intro out ho
  obtain ⟨h1, _, _, h4, _, _, _, h8, _, _⟩ := hout out ho
  have ha : allowance Sap.allowances 7 9 = 101 := by decide
  have hf : Sap.stats.fee = 1 := by decide
  rw [hf] at h4 h1
  rw [ha] at h4
  exact ⟨by omega, by omega, h8⟩
